import Mathlib

/-!
# Verification of the registry-sync / install-size core

Shallow embedding of the repository's core components:

* the install-size dependency-tree resolver (`resolveVersion`,
  `matchesPlatform`, `resolveDependencyTree`, `getInstallSize`),
* the backfill orchestrator tick and start operations
  (`processBackfillTick`, `startBackfillProcess`),
* the notification dispatcher's preference filter and in-app insert
  (`shouldNotifyUser`, `insertNotification`),
* the npm change-feed listener retry loop (`runChangesListener`).

Modelling conventions:

* Machine integers are `Nat` (sizes are byte counts, offsets are counts).
* JavaScript `Map`/object dictionaries are association lists in insertion
  order; `Set` is a `List` used as a set.
* `fetch` and other fallible externals are `Option`/`Except` valued inputs:
  a registry is a pure snapshot `String → Option Packument` (`none` models a
  non-ok response, a thrown fetch error, or a missing package).  The
  per-invocation packument cache memoizes this pure function, so it has no
  observable effect and is dropped from the embedding.
* `Promise.all` batches execute their synchronous tails in some order on the
  single JS thread; the embedding processes entries sequentially in list
  order, one valid interleaving.  The 20-wide batching has no further
  observable effect in that sequential semantics and is elided.
* Wall-clock behavior (the 15 s abort signal, backoff sleeps, `startedAt`
  and `rate` bookkeeping) is not modelled; delays appear as data (the
  computed millisecond values), never as real time.
* The external semver matcher (`maxSatisfying`, assumed available as a
  library primitive by the design) is a parameter `maxSat`.
-/

/-! ## Definitions: shallow embedding of the source -/

/-- JS `String.prototype.startsWith` on the embedding's strings. -/
def strStartsWith (s p : String) : Bool :=
  p.data.isPrefixOf s.data

/-- JS `String.prototype.slice(n)` (drop the first `n` characters). -/
def strSlice (s : String) (n : Nat) : String :=
  ⟨s.data.drop n⟩

/-- Helper for `lastAtIndex`: fold over the characters tracking the last
index at which `'@'` occurred (`-1` if none), JS `lastIndexOf` style. -/
def lastAtIndexAux : List Char → Int → Int → Int
  | [], last, _ => last
  | c :: rest, last, i => lastAtIndexAux rest (if c = '@' then i else last) (i + 1)

/-- JS `range.lastIndexOf("@")`: index of the last `'@'`, `-1` if absent. -/
def lastAtIndex (s : String) : Int :=
  lastAtIndexAux s.data (-1) 0

theorem lastAtIndexAux_lt (l : List Char) :
    ∀ last i : Int, last < i → lastAtIndexAux l last i < i + l.length := by
  induction l with
  | nil => intro last i h; simpa [lastAtIndexAux] using h
  | cons c rest ih =>
      intro last i h
      simp only [lastAtIndexAux, List.length_cons]
      have h' : (if c = '@' then i else last) < i + 1 := by
        split <;> omega
      have := ih (if c = '@' then i else last) (i + 1) h'
      push_cast at this ⊢
      omega

theorem lastAtIndex_lt (s : String) : lastAtIndex s < (s.data.length : Int) := by
  have := lastAtIndexAux_lt s.data (-1) 0 (by norm_num)
  simpa [lastAtIndex] using this

/-- First-match association-list lookup, the embedding of JS `Map.get` /
object indexing (JS maps hold each key once, so first match is the match). -/
def lookupKey {α : Type} (k : String) : List (String × α) → Option α
  | [] => none
  | (a, b) :: t => if k = a then some b else lookupKey k t

/-- `dist` metadata of a published version (`dist.unpackedSize` optional).
Named `DistMeta` because `Dist` is taken by the ambient library. -/
structure DistMeta where
  unpackedSize : Option Nat
deriving DecidableEq

/-- One entry of `packument.versions`. -/
structure PackumentVersion where
  version : String
  dist : Option DistMeta
  dependencies : List (String × String)
  optionalDependencies : List (String × String)
  os : Option (List String)
  cpu : Option (List String)
  libc : Option (List String)
deriving DecidableEq

/-- A packument: `dist-tags.latest` is collapsed to the single consulted
field `latest`; `versions` is the (optional) version dictionary. -/
structure Packument where
  name : String
  latest : Option String
  versions : Option (List (String × PackumentVersion))
deriving DecidableEq

/-- A resolved package in the result set (name, version, unpacked size). -/
structure ResolvedPackage where
  name : String
  version : String
  size : Nat
deriving DecidableEq

/-- Hard cap on the number of resolved packages (source constant). -/
def MAX_PACKAGES : Nat := 500

/-- Embedding of `resolveVersion(range, versions)` from part_011: exact-match
fast path; `npm:` aliases recurse on the sub-range after the last `'@'`
(against the same `versions` list); URL/git/file/path specifiers are
unresolvable; otherwise defer to the external semver matcher `maxSat`. -/
def resolveVersion (maxSat : List String → String → Option String)
    (range : String) (versions : List String) : Option String :=
  if range ∈ versions then some range
  else if strStartsWith range "npm:" then
    if 4 < lastAtIndex range then
      resolveVersion maxSat (strSlice range ((lastAtIndex range).toNat + 1)) versions
    else none
  else if strStartsWith range "http://" || strStartsWith range "https://"
      || strStartsWith range "git" || strStartsWith range "file:"
      || range.data.contains '/' then none
  else maxSat versions range
termination_by range.data.length
decreasing_by
  simp only [strSlice, List.length_drop]
  have h1 := lastAtIndex_lt range
  omega

/-- One platform constraint list (`os` / `cpu` / `libc`): absent or empty
passes; otherwise some element must match `target` (with `!`-negation). -/
def platformFieldOk (target : String) (field : Option (List String)) : Bool :=
  match field with
  | none => true
  | some l =>
      if 0 < l.length then
        l.any (fun s => if strStartsWith s "!" then decide (strSlice s 1 ≠ target) else decide (s = target))
      else true

/-- Embedding of `matchesPlatform(v)`: linux/x64/glibc target. -/
def matchesPlatform (v : PackumentVersion) : Bool :=
  platformFieldOk "linux" v.os && platformFieldOk "x64" v.cpu && platformFieldOk "glibc" v.libc

/-- JS object spread `{...deps, ...optionalDeps}`: keys of the first object
in order (values overridden by the second), then new keys of the second. -/
def mergeDeps (a b : List (String × String)) : List (String × String) :=
  a.map (fun kv => (kv.1, (lookupKey kv.1 b).getD kv.2)) ++
    b.filter (fun kv => decide (lookupKey kv.1 a = none))

/-- The BFS traversal state: resolved map keyed by `name@version`, the
visited-name set `seen`, and the next level keyed by name. -/
structure TraversalState where
  resolved : List (String × ResolvedPackage)
  seen : List String
  nextLevel : List (String × String)
deriving DecidableEq

/-- `name@version` key of the resolved map. -/
def mkKey (name version : String) : String := name ++ "@" ++ version

/-- The dependency-push loop at the end of each fetch task: enqueue a
dependency for the next level unless its name was already visited, already
enqueued, or the resolved set has reached the cap. -/
def pushDeps (st : TraversalState) (deps : List (String × String)) : TraversalState :=
  deps.foldl
    (fun s d =>
      if d.1 ∉ s.seen ∧ lookupKey d.1 s.nextLevel = none ∧ s.resolved.length < MAX_PACKAGES then
        { s with nextLevel := s.nextLevel ++ [d] }
      else s)
    st

/-- One fetch task of `resolveDependencyTree` for a `(name, range)` entry:
fetch the packument, resolve the range, check the platform, record the
resolved package (deduplicating by `name@version`), push its dependencies. -/
def processEntry (registry : String → Option Packument)
    (maxSat : List String → String → Option String)
    (st : TraversalState) (e : String × String) : TraversalState :=
  match registry e.1 with
  | none => st
  | some packument =>
    match packument.versions with
    | none => st
    | some vlist =>
      match resolveVersion maxSat e.2 (vlist.map Prod.fst) with
      | none => st
      | some version =>
        match lookupKey version vlist with
        | none => st
        | some versionData =>
          if matchesPlatform versionData then
            let size := (versionData.dist.bind DistMeta.unpackedSize).getD 0
            let key := mkKey e.1 version
            let st1 :=
              if (lookupKey key st.resolved).isSome then st
              else { st with resolved := st.resolved ++ [(key, ⟨e.1, version, size⟩)] }
            pushDeps st1 (mergeDeps versionData.dependencies versionData.optionalDependencies)
          else st

/-- Process a whole BFS level (sequential semantics of the batched
`Promise.all` fan-out). -/
def processLevel (registry : String → Option Packument)
    (maxSat : List String → String → Option String)
    (st : TraversalState) (lvl : List (String × String)) : TraversalState :=
  lvl.foldl (processEntry registry maxSat) st

/-- The `while (currentLevel.size > 0 && resolved.size < MAX_PACKAGES)` loop.
Fuel bounds the recursion; every executed iteration that has a successor
strictly grows `resolved`, so `MAX_PACKAGES + 2` fuel is never exhausted. -/
def resolveLoop (registry : String → Option Packument)
    (maxSat : List String → String → Option String) :
    Nat → List (String × ResolvedPackage) → List String → List (String × String) →
      List (String × ResolvedPackage)
  | 0, resolved, _, _ => resolved
  | fuel + 1, resolved, seen, currentLevel =>
      if 0 < currentLevel.length ∧ resolved.length < MAX_PACKAGES then
        let st := processLevel registry maxSat
          ⟨resolved, seen ++ currentLevel.map Prod.fst, []⟩ currentLevel
        resolveLoop registry maxSat fuel st.resolved st.seen st.nextLevel
      else resolved

/-- Embedding of `resolveDependencyTree(rootName, rootVersion)`. -/
def resolveDependencyTree (registry : String → Option Packument)
    (maxSat : List String → String → Option String)
    (rootName rootVersion : String) : List (String × ResolvedPackage) :=
  resolveLoop registry maxSat (MAX_PACKAGES + 2) [] [] [(rootName, rootVersion)]

/-- Result record of `getInstallSize`. -/
structure InstallSizeResult where
  selfSize : Nat
  totalSize : Nat
  dependencyCount : Nat
deriving DecidableEq

/-- Embedding of `getInstallSize(name, version?)`: pick the requested (or
latest, or last-listed) version, resolve the tree, and aggregate sizes; the
root key is excluded from `dependencyCount` but summed into `totalSize`. -/
def getInstallSize (registry : String → Option Packument)
    (maxSat : List String → String → Option String)
    (name : String) (version? : Option String) : Option InstallSizeResult :=
  match registry name with
  | none => none
  | some packument =>
    match packument.versions with
    | none => none
    | some vlist =>
      match version? <|> packument.latest <|> (vlist.map Prod.fst).getLast? with
      | none => none
      | some resolvedVersion =>
        let resolved := resolveDependencyTree registry maxSat name resolvedVersion
        let rootKey := mkKey name resolvedVersion
        let selfSize :=
          match lookupKey rootKey resolved with
          | some p => p.size
          | none => 0
        let totalSize := (resolved.map (fun p => p.2.size)).sum
        let dependencyCount :=
          (resolved.filter (fun p => decide (mkKey p.2.name p.2.version ≠ rootKey))).length
        some ⟨selfSize, totalSize, dependencyCount⟩

/-- Status of the single global backfill state row. -/
inductive BackfillStatus where
  | idle
  | running
  | paused
  | completed
  | error
deriving DecidableEq

/-- Modelled from the spec: the persisted global `BackfillState`
(status/total/offset/startedAt/rate/errorMessage), extended with the stored
full package list that `getPackageBatch` slices. -/
structure BackfillState where
  status : BackfillStatus
  total : Nat
  offset : Nat
  startedAt : Nat
  rate : Nat
  errorMessage : Option String
  packageList : List String
deriving DecidableEq

/-- Modelled from the spec: `startBackfill(packages)` from the missing
`./state` module stores the full list and enters `running` with
`total = packages.length, offset = 0`. -/
def startBackfill (s : BackfillState) (packages : List String) : BackfillState :=
  { s with
      status := BackfillStatus.running
      total := packages.length
      offset := 0
      errorMessage := none
      packageList := packages }

/-- Modelled from the spec: `completeBackfill()` sets `status = completed`. -/
def completeBackfill (s : BackfillState) : BackfillState :=
  { s with status := BackfillStatus.completed }

/-- Modelled from the spec: `errorBackfill(msg)` sets `status = error` and
retains the message. -/
def errorBackfill (s : BackfillState) (msg : String) : BackfillState :=
  { s with status := BackfillStatus.error, errorMessage := some msg }

/-- Modelled from the spec: `updateProgress(processed, failed, newOffset)`
advances `offset` to `newOffset` (rate bookkeeping is wall-clock and not
modelled). -/
def updateProgress (s : BackfillState) (processed failed newOffset : Nat) : BackfillState :=
  { s with offset := newOffset }

/-- Modelled from the spec: `getPackageBatch(offset, size)` slices the
stored full list. -/
def getPackageBatch (s : BackfillState) (offset batchSize : Nat) : List String :=
  (s.packageList.drop offset).take batchSize

/-- Packages queued per orchestrator tick (source constant). -/
def BATCH_SIZE : Nat := 500

/-- Embedding of `processBackfillTick`: the state read at the top of the
tick is `s`; `listing` is the outcome of `getAllPackages` (pages in arrival
order), consulted only on the `total == 0` initialization branch.  Returns
the new state and the batches pushed to the sync queue. -/
def processBackfillTick (s : BackfillState)
    (listing : Except String (List (List String))) :
    BackfillState × List (List String) :=
  if s.status ≠ BackfillStatus.running then (s, [])
  else if s.total = 0 then
    match listing with
    | Except.ok pages =>
        let packages := pages.flatten
        let s1 := startBackfill s packages
        let s2 := updateProgress s1 packages.length 0 packages.length
        (completeBackfill s2, pages)
    | Except.error e => (errorBackfill s e, [])
  else if s.total ≤ s.offset then (completeBackfill s, [])
  else
    let batch := getPackageBatch s s.offset BATCH_SIZE
    if batch = [] then (completeBackfill s, [])
    else (updateProgress s batch.length 0 (s.offset + batch.length), [batch])

/-- Embedding of `startBackfillProcess`: guarded on `running`; on success the
listing's pages are queued as they arrive and the state records the full
list with `offset = total`.  A thrown error is the `Except.error` value; the
error return carries no state change and no queued batches. -/
def startBackfillProcess (s : BackfillState)
    (listing : Except String (List (List String))) :
    Except String (BackfillState × List (List String)) :=
  if s.status = BackfillStatus.running then
    Except.error "Backfill already running. Pause it first to start a new one."
  else
    match listing with
    | Except.error e => Except.error e
    | Except.ok pages =>
        let packages := pages.flatten
        let s1 := startBackfill s packages
        let s2 := updateProgress s1 packages.length 0 packages.length
        Except.ok (s2, pages)

/-- Per-user effective preferences row (part_012 `UserWithPreferences`). -/
structure UserWithPreferences where
  userId : String
  email : String
  notifyAllUpdates : Bool
  notifyMajorOnly : Bool
  notifySecurityOnly : Bool
  inAppEnabled : Bool
  slackEnabled : Bool
  emailDigestEnabled : Bool
  emailImmediateCritical : Bool
deriving DecidableEq

/-- Embedding of `shouldNotifyUser(prefs, severity, isSecurityUpdate)`:
`none` models a null prefs argument (default: notify on non-info or
security). -/
def shouldNotifyUser (prefs : Option UserWithPreferences)
    (severity : String) (isSecurityUpdate : Bool) : Bool :=
  match prefs with
  | none => decide (severity ≠ "info") || isSecurityUpdate
  | some p =>
      if p.notifyAllUpdates then true
      else if p.notifySecurityOnly && isSecurityUpdate then true
      else if p.notifyMajorOnly && decide (severity ≠ "info") then true
      else false

/-- The values inserted by `insertNotification` (queries.ts
`NotificationInsert`); severities are the strings critical/important/info. -/
structure NotificationInsert where
  id : String
  userId : String
  packageName : String
  newVersion : String
  previousVersion : Option String
  severity : String
  isSecurityUpdate : Bool
  isBreakingChange : Bool
  changelogSnippet : Option String
  vulnerabilitiesFixed : Option Nat
deriving DecidableEq

/-- A persisted notification row (insert values plus `read`). -/
structure NotificationRow where
  id : String
  userId : String
  packageName : String
  newVersion : String
  previousVersion : Option String
  severity : String
  isSecurityUpdate : Bool
  isBreakingChange : Bool
  changelogSnippet : Option String
  vulnerabilitiesFixed : Option Nat
  read : Bool
deriving DecidableEq

/-- The row written by `insertNotification` (`read` starts false). -/
def toRow (d : NotificationInsert) : NotificationRow :=
  { id := d.id
    userId := d.userId
    packageName := d.packageName
    newVersion := d.newVersion
    previousVersion := d.previousVersion
    severity := d.severity
    isSecurityUpdate := d.isSecurityUpdate
    isBreakingChange := d.isBreakingChange
    changelogSnippet := d.changelogSnippet
    vulnerabilitiesFixed := d.vulnerabilitiesFixed
    read := false }

/-- A stored row conflicts with an insert when it matches the unique index
key `(user_id, package_name, new_version)`. -/
def conflictsWith (r : NotificationRow) (d : NotificationInsert) : Prop :=
  r.userId = d.userId ∧ r.packageName = d.packageName ∧ r.newVersion = d.newVersion

instance (r : NotificationRow) (d : NotificationInsert) : Decidable (conflictsWith r d) := by
  unfold conflictsWith; infer_instance

/-- Embedding of `insertNotification` (queries.ts; `createInAppNotification`
in part_012 executes the same statement):
`INSERT ... ON CONFLICT (user_id, package_name, new_version) DO NOTHING`.
Modelled from the spec: the notification table carries a unique index on
that triple (the schema module is not among the sources), so the insert is a
no-op exactly when a row with the same triple exists. -/
def insertNotification (table : List NotificationRow) (d : NotificationInsert) :
    List NotificationRow :=
  if ∃ r ∈ table, conflictsWith r d then table
  else table ++ [toRow d]

/-- Number of rows of the table holding a given
`(userId, packageName, newVersion)` triple. -/
def keyCount (table : List NotificationRow) (u p v : String) : Nat :=
  (table.filter (fun r => decide (r.userId = u ∧ r.packageName = p ∧ r.newVersion = v))).length

/-- A normalized change-feed entry (`change.id/seq/deleted`). -/
structure ChangeEvt where
  id : String
  seq : Nat
  deleted : Bool
deriving DecidableEq

/-- One connection attempt: the events delivered before the stream either
threw (`failed = true`) or ended normally. -/
structure Attempt where
  events : List ChangeEvt
  failed : Bool
deriving DecidableEq

/-- Retry ceiling of the listener loop (source constant `maxRetries`). -/
def maxRetries : Nat := 10

/-- Jobs queued for a batch of received events: design documents are
skipped, everything else goes to `queuePackageSync`. -/
def jobsOf (events : List ChangeEvt) : List ChangeEvt :=
  events.filter (fun c => !strStartsWith c.id "_design/")

/-- `Math.min(1000 * Math.pow(2, retries), 30000)`. -/
def backoffDelay (retries : Nat) : Nat :=
  min (1000 * 2 ^ retries) 30000

/-- Embedding of the `while (retries < maxRetries)` loop of
`runChangesListener`: every received event resets `retries` to 0 (before
the design-document skip); a failure increments it, sleeps the backoff
delay if still below the ceiling, and otherwise falls out of the loop into
the final `throw`. -/
def listenerLoop : List Attempt → Nat → List Nat × List ChangeEvt × Option Nat
  | [], retries => ([], [], some retries)
  | a :: rest, retries =>
      let retries1 := if a.events.isEmpty then retries else 0
      let jobs := jobsOf a.events
      if a.failed then
        let retries2 := retries1 + 1
        if retries2 < maxRetries then
          let r := listenerLoop rest retries2
          (backoffDelay retries2 :: r.1, jobs ++ r.2.1, r.2.2)
        else ([], jobs, none)
      else
        let r := listenerLoop rest retries1
        (r.1, jobs ++ r.2.1, r.2.2)

/-- Embedding of `runChangesListener` (retry counter starts at 0). -/
def runChangesListener (script : List Attempt) : List Nat × List ChangeEvt × Option Nat :=
  listenerLoop script 0

/-- Concrete idle backfill state. -/
def idleState : BackfillState :=
  ⟨BackfillStatus.idle, 0, 0, 0, 0, none, []⟩

/-- Concrete running backfill state whose offset passed its total. -/
def overState : BackfillState :=
  ⟨BackfillStatus.running, 5, 7, 0, 0, none, []⟩

/-- A concrete dispatch payload for the dedup witness. -/
def sampleInsert : NotificationInsert :=
  ⟨"id1", "u1", "left-pad", "2.0.0", none, "info", true, false, none, none⟩

/-- A degenerate external semver matcher (used for concrete instances that
only exercise the exact-match fast path). -/
def noSemver : List String → String → Option String := fun _ _ => none

/-- Invariant of the frontier: next-level names are distinct and unseen. -/
def NextLevelInv (st : TraversalState) : Prop :=
  (st.nextLevel.map Prod.fst).Nodup ∧ ∀ k ∈ st.nextLevel.map Prod.fst, k ∉ st.seen

/-- Key coherence and key distinctness of the resolved association list:
every stored key is the `name@version` of its entry, and keys are unique
(the insert is guarded by a lookup). -/
def KeysInv (resolved : List (String × ResolvedPackage)) : Prop :=
  (∀ p ∈ resolved, p.1 = mkKey p.2.name p.2.version) ∧ (resolved.map Prod.fst).Nodup

/-- A single-version leaf package used in concrete instances. -/
def leafVd : PackumentVersion :=
  ⟨"1.0.0", some ⟨some 1⟩, [], [], none, none, none⟩

/-- Packument of a leaf package (one version `1.0.0`, size 1, no deps). -/
def leafPk (n : String) : Packument :=
  ⟨n, some "1.0.0", some [("1.0.0", leafVd)]⟩

/-- A one-package registry for the C8 witness. -/
def singleRegistry : String → Option Packument := fun n =>
  if n = "ok" then some (leafPk "ok") else none

def appVd : PackumentVersion :=
  ⟨"1.0.0", some ⟨some 10⟩, [("alias-dep", "npm:real@2.0.0")], [], none, none, none⟩

def aliasVd : PackumentVersion :=
  ⟨"2.0.0", some ⟨some 7⟩, [], [], none, none, none⟩

def realVd : PackumentVersion :=
  ⟨"1.0.0", some ⟨some 5⟩, [], [], none, none, none⟩

def aliasRegistry : String → Option Packument := fun n =>
  if n = "app" then some ⟨"app", some "1.0.0", some [("1.0.0", appVd)]⟩
  else if n = "alias-dep" then some ⟨"alias-dep", some "2.0.0", some [("2.0.0", aliasVd)]⟩
  else if n = "real" then some ⟨"real", some "1.0.0", some [("1.0.0", realVd)]⟩
  else none

/-- The i-th fan dependency name: i+1 copies of the letter d. -/
def dName (i : Nat) : String := ⟨List.replicate (i + 1) 'd'⟩

/-- The fan root's dependency object: k leaf packages. -/
def fanDeps (k : Nat) : List (String × String) :=
  (List.range k).map (fun i => (dName i, "1.0.0"))

def fanRootVd (k : Nat) : PackumentVersion :=
  ⟨"1.0.0", some ⟨some 1⟩, fanDeps k, [], none, none, none⟩

/-- A registry whose root has k leaf dependencies. -/
def fanRegistry (k : Nat) : String → Option Packument := fun n =>
  if n = "root" then some ⟨"root", some "1.0.0", some [("1.0.0", fanRootVd k)]⟩
  else if n.data ≠ [] ∧ n.data.all (fun c => c = 'd') ∧ n.data.length - 1 < k then
    some (leafPk n)
  else none

/-! ## Theorems -/

theorem lookupKey_eq_none_iff {α : Type} (k : String) (l : List (String × α)) :
    lookupKey k l = none ↔ k ∉ l.map Prod.fst := by
  induction l with
  | nil => simp [lookupKey]
  | cons p t ih =>
      cases p with
      | mk a b =>
          by_cases h : k = a
          · simp [lookupKey, h]
          · simp [lookupKey, h, ih]

theorem lookupKey_append_left {α : Type} (k : String) (l₁ l₂ : List (String × α))
    (h : lookupKey k l₁ = none) :
    lookupKey k (l₁ ++ l₂) = lookupKey k l₂ := by
  induction l₁ with
  | nil => simp
  | cons p t ih =>
      cases p with
      | mk a b =>
          by_cases hk : k = a
          · simp [lookupKey, hk] at h
          · simp only [lookupKey, hk, if_neg] at h ⊢
            simp [List.cons_append, lookupKey, hk, ih h]

theorem lookupKey_mem_keys {α : Type} {k : String} {l : List (String × α)} {v : α}
    (h : lookupKey k l = some v) : k ∈ l.map Prod.fst := by
  by_contra hmem
  rw [← lookupKey_eq_none_iff] at hmem
  rw [hmem] at h
  exact Option.noConfusion h

/-- C2: a backfill tick whose state is not `running` performs no state
mutation and queues nothing; a tick in `running` state with `total > 0` and
`offset >= total` transitions the status to `completed`. -/
theorem backfillTick_noop_and_completes (s : BackfillState)
    (listing : Except String (List (List String))) :
    (s.status ≠ BackfillStatus.running → processBackfillTick s listing = (s, [])) ∧
    (s.status = BackfillStatus.running → 0 < s.total → s.total ≤ s.offset →
      processBackfillTick s listing = (completeBackfill s, []) ∧
      (processBackfillTick s listing).1.status = BackfillStatus.completed) := by
  constructor
  · intro h
    simp [processBackfillTick, h]
  · intro h1 h2 h3
    have ht : ¬ s.total = 0 := by omega
    have heq : processBackfillTick s listing = (completeBackfill s, []) := by
      simp [processBackfillTick, h1, ht, h3]
    exact ⟨heq, by rw [heq]; rfl⟩

/-- Witness for C2 at concrete states. -/
theorem backfillTick_noop_and_completes_witness :
    processBackfillTick idleState (Except.ok []) = (idleState, []) ∧
    processBackfillTick overState (Except.ok []) = (completeBackfill overState, []) :=
  ⟨(backfillTick_noop_and_completes idleState (Except.ok [])).1 (by decide),
   ((backfillTick_noop_and_completes overState (Except.ok [])).2 rfl (by decide) (by decide)).1⟩

/-- C7: `startBackfillProcess` on a `running` state fails synchronously with
the descriptive coordination error; the error return carries no new state
and no queued batches, and the listing input is never consumed. -/
theorem startBackfillProcess_guard (s : BackfillState)
    (listing : Except String (List (List String)))
    (h : s.status = BackfillStatus.running) :
    startBackfillProcess s listing =
      Except.error "Backfill already running. Pause it first to start a new one." := by
  simp [startBackfillProcess, h]

/-- Witness for C7 at a concrete running state. -/
theorem startBackfillProcess_guard_witness :
    startBackfillProcess overState (Except.ok [["a"]]) =
      Except.error "Backfill already running. Pause it first to start a new one." :=
  startBackfillProcess_guard overState (Except.ok [["a"]]) rfl

/-- C4: with effective preferences `notifyAllUpdates = false,
notifyMajorOnly = true, notifySecurityOnly = true`, an info-severity
security update passes the filter and an info-severity non-security update
does not, whatever the remaining preference fields are. -/
theorem shouldNotifyUser_info_security (userId email : String)
    (inApp slackOn digestOn critOn : Bool) :
    shouldNotifyUser
        (some ⟨userId, email, false, true, true, inApp, slackOn, digestOn, critOn⟩)
        "info" true = true ∧
    shouldNotifyUser
        (some ⟨userId, email, false, true, true, inApp, slackOn, digestOn, critOn⟩)
        "info" false = false := by
  constructor <;> rfl

/-- One insert keeps at most one row per `(userId, packageName,
newVersion)` triple. -/
theorem insertNotification_keyCount_le_one (table : List NotificationRow)
    (d : NotificationInsert) (u p v : String)
    (h : keyCount table u p v ≤ 1) :
    keyCount (insertNotification table d) u p v ≤ 1 := by
  unfold insertNotification
  split
  · exact h
  · rename_i hno
    push_neg at hno
    unfold keyCount at h ⊢
    rw [List.filter_append, List.length_append]
    by_cases hd : d.userId = u ∧ d.packageName = p ∧ d.newVersion = v
    · have hzero :
          table.filter (fun r => decide (r.userId = u ∧ r.packageName = p ∧ r.newVersion = v)) = [] := by
        rw [List.filter_eq_nil_iff]
        intro r hr
        simp only [decide_eq_true_eq]
        intro hmatch
        exact hno r hr ⟨hmatch.1.trans hd.1.symm, hmatch.2.1.trans hd.2.1.symm,
          hmatch.2.2.trans hd.2.2.symm⟩
      rw [hzero]
      have hle := List.length_filter_le
        (fun r => decide (r.userId = u ∧ r.packageName = p ∧ r.newVersion = v)) [toRow d]
      simp only [List.length_nil, List.length_singleton] at hle ⊢
      omega
    · have hone :
          List.filter (fun r => decide (r.userId = u ∧ r.packageName = p ∧ r.newVersion = v))
            [toRow d] = [] := by
        rw [List.filter_eq_nil_iff]
        intro r hr
        simp only [List.mem_singleton] at hr
        subst hr
        simp only [decide_eq_true_eq, toRow]
        exact hd
      rw [hone]
      simpa using h

/-- C3: starting from a table with at most one row for a given
`(userId, packageName, newVersion)` triple, any sequence of dispatch
attempts (each performing the `ON CONFLICT DO NOTHING` insert) still leaves
at most one row for that triple, and an insert that conflicts with an
existing row is a no-op on the table. -/
theorem notification_insert_dedup (table : List NotificationRow)
    (ds : List NotificationInsert) (u p v : String)
    (h : keyCount table u p v ≤ 1) :
    keyCount (ds.foldl insertNotification table) u p v ≤ 1 ∧
    ∀ d : NotificationInsert, (∃ r ∈ table, conflictsWith r d) →
      insertNotification table d = table := by
  constructor
  · induction ds generalizing table with
    | nil => exact h
    | cons d rest ih =>
        exact ih (insertNotification table d) (insertNotification_keyCount_le_one table d u p v h)
  · intro d hd
    unfold insertNotification
    rw [if_pos hd]

/-- Witness for C3: dispatching the same update twice to an empty table. -/
theorem notification_insert_dedup_witness :
    keyCount ([sampleInsert, sampleInsert].foldl insertNotification []) "u1" "left-pad" "2.0.0" ≤ 1 ∧
    insertNotification [toRow sampleInsert] sampleInsert = [toRow sampleInsert] :=
  ⟨(notification_insert_dedup [] [sampleInsert, sampleInsert] "u1" "left-pad" "2.0.0"
      (by decide)).1,
   (notification_insert_dedup [toRow sampleInsert] [] "u1" "left-pad" "2.0.0" (by decide)).2
      sampleInsert ⟨toRow sampleInsert, by decide⟩⟩

/-- C9 counterexample: the delay slept after the first consecutive transport
failure is 2000 ms, not the 1000 ms a schedule starting at the 1-second base
would give (the code computes `1000 * 2 ^ retries` after incrementing
`retries`). -/
theorem changesListener_first_delay_counterexample :
    runChangesListener [⟨[], true⟩] = ([2000], [], some 1) ∧ (2000 : Nat) ≠ 1000 := by
  exact ⟨rfl, by decide⟩

/-- C9 (amended): after the `r`-th consecutive failure with no intervening
event the listener sleeps `min (1000 * 2 ^ r) 30000` ms — so the delays
start at 2 s, double per consecutive failure and are capped at 30 s; the
10th consecutive failure exits the loop and throws with no further delay;
receiving any event resets the retry counter to zero (an event-carrying
attempt continues with counter 0, and a failure right after events sleeps
the 2 s first-failure delay again regardless of the previous counter). -/
theorem changesListener_backoff_spec :
    (∀ r : Nat, r < maxRetries → 1 ≤ r →
      runChangesListener (List.replicate r ⟨[], true⟩) =
        ((List.range r).map (fun i => min (1000 * 2 ^ (i + 1)) 30000), [], some r)) ∧
    runChangesListener (List.replicate maxRetries ⟨[], true⟩) =
      ((List.range (maxRetries - 1)).map (fun i => min (1000 * 2 ^ (i + 1)) 30000), [], none) ∧
    (∀ (k : Nat) (e : ChangeEvt) (es : List ChangeEvt) (rest : List Attempt),
      listenerLoop (⟨e :: es, false⟩ :: rest) k =
        ((listenerLoop rest 0).1, jobsOf (e :: es) ++ (listenerLoop rest 0).2.1,
          (listenerLoop rest 0).2.2)) ∧
    (∀ (k : Nat) (e : ChangeEvt) (es : List ChangeEvt) (rest : List Attempt),
      (listenerLoop (⟨e :: es, true⟩ :: rest) k).1 = 2000 :: (listenerLoop rest 1).1) := by
  refine ⟨by decide, by decide, ?_, ?_⟩
  · intro k e es rest
    simp [listenerLoop]
  · intro k e es rest
    simp [listenerLoop, maxRetries, backoffDelay]

/-- Witness for C9 (amended) at three consecutive failures. -/
theorem changesListener_backoff_spec_witness :
    runChangesListener (List.replicate 3 ⟨[], true⟩) = ([2000, 4000, 8000], [], some 3) := by
  have h := changesListener_backoff_spec.1 3 (by decide) (by decide)
  rw [h]
  decide

theorem resolveVersion_exact (maxSat : List String → String → Option String)
    {v : String} {versions : List String} (h : v ∈ versions) :
    resolveVersion maxSat v versions = some v := by
  rw [resolveVersion]
  rw [if_pos h]

theorem pushDeps_resolved (deps : List (String × String)) :
    ∀ st : TraversalState, (pushDeps st deps).resolved = st.resolved := by
  induction deps with
  | nil => intro st; rfl
  | cons d rest ih =>
      intro st
      unfold pushDeps at ih ⊢
      rw [List.foldl_cons]
      by_cases h : d.1 ∉ st.seen ∧ lookupKey d.1 st.nextLevel = none ∧
          st.resolved.length < MAX_PACKAGES
      · rw [if_pos h]
        exact ih _
      · rw [if_neg h]
        exact ih st

theorem pushDeps_seen (deps : List (String × String)) :
    ∀ st : TraversalState, (pushDeps st deps).seen = st.seen := by
  induction deps with
  | nil => intro st; rfl
  | cons d rest ih =>
      intro st
      unfold pushDeps at ih ⊢
      rw [List.foldl_cons]
      by_cases h : d.1 ∉ st.seen ∧ lookupKey d.1 st.nextLevel = none ∧
          st.resolved.length < MAX_PACKAGES
      · rw [if_pos h]
        exact ih _
      · rw [if_neg h]
        exact ih st

theorem processEntry_seen (registry : String → Option Packument)
    (maxSat : List String → String → Option String)
    (st : TraversalState) (e : String × String) :
    (processEntry registry maxSat st e).seen = st.seen := by
  unfold processEntry
  repeat' split
  all_goals try rfl
  all_goals rw [pushDeps_seen]
  all_goals split <;> rfl

/-- One fetch task either leaves the resolved list unchanged or appends a
single key-coherent entry named after the processed entry, whose key was
not present before. -/
theorem processEntry_resolved_cases (registry : String → Option Packument)
    (maxSat : List String → String → Option String)
    (st : TraversalState) (e : String × String) :
    (processEntry registry maxSat st e).resolved = st.resolved ∨
    ∃ v sz, lookupKey (mkKey e.1 v) st.resolved = none ∧
      (processEntry registry maxSat st e).resolved =
        st.resolved ++ [(mkKey e.1 v, ⟨e.1, v, sz⟩)] := by
  unfold processEntry
  repeat' split
  all_goals try (left; rfl)
  all_goals rw [pushDeps_resolved]
  all_goals split
  all_goals try (left; rfl)
  right
  rename_i hnot
  exact ⟨_, _, Option.not_isSome_iff_eq_none.mp hnot, rfl⟩

theorem pushDeps_nlinv (deps : List (String × String)) :
    ∀ st : TraversalState, NextLevelInv st → NextLevelInv (pushDeps st deps) := by
  induction deps with
  | nil => intro st h; exact h
  | cons d rest ih =>
      intro st h
      unfold pushDeps at ih ⊢
      rw [List.foldl_cons]
      by_cases hc : d.1 ∉ st.seen ∧ lookupKey d.1 st.nextLevel = none ∧
          st.resolved.length < MAX_PACKAGES
      · rw [if_pos hc]
        apply ih
        constructor
        · rw [List.map_append]
          rw [List.nodup_append]
          refine ⟨h.1, List.nodup_singleton _, ?_⟩
          intro k hk hk'
          simp only [List.map_cons, List.map_nil, List.mem_singleton] at hk'
          subst hk'
          rw [lookupKey_eq_none_iff] at hc
          exact hc.2.1 hk
        · intro k hk
          simp only [List.map_append, List.mem_append, List.map_cons, List.map_nil,
            List.mem_singleton] at hk
          rcases hk with hk | hk
          · exact h.2 k hk
          · subst hk; exact hc.1
      · rw [if_neg hc]
        exact ih st h

theorem processEntry_nlinv (registry : String → Option Packument)
    (maxSat : List String → String → Option String)
    (st : TraversalState) (e : String × String) (h : NextLevelInv st) :
    NextLevelInv (processEntry registry maxSat st e) := by
  unfold processEntry
  repeat' split
  all_goals try exact h
  all_goals exact pushDeps_nlinv _ _ (by split <;> exact h)

theorem processLevel_seen (registry : String → Option Packument)
    (maxSat : List String → String → Option String) :
    ∀ (lvl : List (String × String)) (st : TraversalState),
      (processLevel registry maxSat st lvl).seen = st.seen := by
  intro lvl
  induction lvl with
  | nil => intro st; rfl
  | cons e rest ih =>
      intro st
      unfold processLevel at ih ⊢
      rw [List.foldl_cons]
      rw [ih]
      exact processEntry_seen registry maxSat st e

theorem processLevel_nlinv (registry : String → Option Packument)
    (maxSat : List String → String → Option String) :
    ∀ (lvl : List (String × String)) (st : TraversalState),
      NextLevelInv st → NextLevelInv (processLevel registry maxSat st lvl) := by
  intro lvl
  induction lvl with
  | nil => intro st h; exact h
  | cons e rest ih =>
      intro st h
      unfold processLevel at ih ⊢
      rw [List.foldl_cons]
      exact ih _ (processEntry_nlinv registry maxSat st e h)

theorem processLevel_resolved_append (registry : String → Option Packument)
    (maxSat : List String → String → Option String) :
    ∀ (lvl : List (String × String)) (st : TraversalState),
      ∃ t, (processLevel registry maxSat st lvl).resolved = st.resolved ++ t := by
  intro lvl
  induction lvl with
  | nil => intro st; exact ⟨[], (List.append_nil _).symm⟩
  | cons e rest ih =>
      intro st
      unfold processLevel at ih ⊢
      rw [List.foldl_cons]
      rcases ih (processEntry registry maxSat st e) with ⟨t, ht⟩
      rcases processEntry_resolved_cases registry maxSat st e with heq | ⟨v, sz, _, heq⟩
      · exact ⟨t, by rw [ht, heq]⟩
      · exact ⟨[(mkKey e.1 v, ⟨e.1, v, sz⟩)] ++ t, by rw [ht, heq, List.append_assoc]⟩

theorem processEntry_keysInv (registry : String → Option Packument)
    (maxSat : List String → String → Option String)
    (st : TraversalState) (e : String × String) (h : KeysInv st.resolved) :
    KeysInv (processEntry registry maxSat st e).resolved := by
  rcases processEntry_resolved_cases registry maxSat st e with heq | ⟨v, sz, hnone, heq⟩
  · rw [heq]; exact h
  · rw [heq]
    constructor
    · intro p hp
      rcases List.mem_append.mp hp with hp | hp
      · exact h.1 p hp
      · simp only [List.mem_singleton] at hp
        subst hp
        rfl
    · rw [List.map_append, List.nodup_append]
      refine ⟨h.2, by simp, ?_⟩
      intro k hk hk'
      simp only [List.map_cons, List.map_nil, List.mem_singleton] at hk'
      subst hk'
      rw [lookupKey_eq_none_iff] at hnone
      exact hnone hk

theorem processLevel_keysInv (registry : String → Option Packument)
    (maxSat : List String → String → Option String) :
    ∀ (lvl : List (String × String)) (st : TraversalState),
      KeysInv st.resolved → KeysInv (processLevel registry maxSat st lvl).resolved := by
  intro lvl
  induction lvl with
  | nil => intro st h; exact h
  | cons e rest ih =>
      intro st h
      unfold processLevel at ih ⊢
      rw [List.foldl_cons]
      exact ih _ (processEntry_keysInv registry maxSat st e h)

theorem resolveLoop_resolved_append (registry : String → Option Packument)
    (maxSat : List String → String → Option String) :
    ∀ (fuel : Nat) (resolved : List (String × ResolvedPackage)) (seen : List String)
      (lvl : List (String × String)),
      ∃ t, resolveLoop registry maxSat fuel resolved seen lvl = resolved ++ t := by
  intro fuel
  induction fuel with
  | zero => intro resolved seen lvl; exact ⟨[], (List.append_nil _).symm⟩
  | succ fuel ih =>
      intro resolved seen lvl
      simp only [resolveLoop]
      split
      · rcases processLevel_resolved_append registry maxSat lvl
          ⟨resolved, seen ++ lvl.map Prod.fst, []⟩ with ⟨t, ht⟩
        rcases ih (processLevel registry maxSat
            ⟨resolved, seen ++ lvl.map Prod.fst, []⟩ lvl).resolved
          (processLevel registry maxSat ⟨resolved, seen ++ lvl.map Prod.fst, []⟩ lvl).seen
          (processLevel registry maxSat ⟨resolved, seen ++ lvl.map Prod.fst, []⟩ lvl).nextLevel
          with ⟨t', ht'⟩
        refine ⟨t ++ t', ?_⟩
        rw [ht', ht, List.append_assoc]
      · exact ⟨[], (List.append_nil _).symm⟩

theorem resolveLoop_keysInv (registry : String → Option Packument)
    (maxSat : List String → String → Option String) :
    ∀ (fuel : Nat) (resolved : List (String × ResolvedPackage)) (seen : List String)
      (lvl : List (String × String)),
      KeysInv resolved → KeysInv (resolveLoop registry maxSat fuel resolved seen lvl) := by
  intro fuel
  induction fuel with
  | zero => intro resolved seen lvl h; exact h
  | succ fuel ih =>
      intro resolved seen lvl h
      simp only [resolveLoop]
      split
      · exact ih _ _ _ (processLevel_keysInv registry maxSat lvl
          ⟨resolved, seen ++ lvl.map Prod.fst, []⟩ h)
      · exact h

/-- Once the resolved set has reached the cap, the loop does nothing more. -/
theorem resolveLoop_capped (registry : String → Option Packument)
    (maxSat : List String → String → Option String)
    (fuel : Nat) (resolved : List (String × ResolvedPackage)) (seen : List String)
    (lvl : List (String × String)) (h : MAX_PACKAGES ≤ resolved.length) :
    resolveLoop registry maxSat fuel resolved seen lvl = resolved := by
  cases fuel with
  | zero => rfl
  | succ fuel =>
      simp only [resolveLoop]
      rw [if_neg]
      intro hc
      omega

/-- Processing one level keeps resolved names distinct and only adds names
drawn from the level's keys. -/
theorem processLevel_names (registry : String → Option Packument)
    (maxSat : List String → String → Option String) :
    ∀ (lvl : List (String × String)) (st : TraversalState),
      (st.resolved.map (fun p => p.2.name)).Nodup →
      (∀ e ∈ lvl, e.1 ∉ st.resolved.map (fun p => p.2.name)) →
      (lvl.map Prod.fst).Nodup →
      ((processLevel registry maxSat st lvl).resolved.map (fun p => p.2.name)).Nodup ∧
      (∀ n ∈ (processLevel registry maxSat st lvl).resolved.map (fun p => p.2.name),
        n ∈ st.resolved.map (fun p => p.2.name) ∨ n ∈ lvl.map Prod.fst) := by
  intro lvl
  induction lvl with
  | nil =>
      intro st h1 h2 h3
      exact ⟨h1, fun n hn => Or.inl hn⟩
  | cons e rest ih =>
      intro st h1 h2 h3
      unfold processLevel at ih ⊢
      rw [List.foldl_cons]
      have h3' : (rest.map Prod.fst).Nodup := (List.nodup_cons.mp h3).2
      have hkey : e.1 ∉ rest.map Prod.fst := (List.nodup_cons.mp h3).1
      rcases processEntry_resolved_cases registry maxSat st e with heq | ⟨v, sz, hnone, heq⟩
      · have hnames : (processEntry registry maxSat st e).resolved.map (fun p => p.2.name) =
            st.resolved.map (fun p => p.2.name) := by rw [heq]
        rcases ih (processEntry registry maxSat st e)
            (by rw [hnames]; exact h1)
            (by intro f hf; rw [hnames]; exact h2 f (List.mem_cons_of_mem e hf)) h3'
          with ⟨hN, hC⟩
        refine ⟨hN, ?_⟩
        intro n hn
        rcases hC n hn with hn' | hn'
        · rw [hnames] at hn'; exact Or.inl hn'
        · exact Or.inr (by simp only [List.map_cons, List.mem_cons]; exact Or.inr hn')
      · have hnames : (processEntry registry maxSat st e).resolved.map (fun p => p.2.name) =
            st.resolved.map (fun p => p.2.name) ++ [e.1] := by rw [heq]; simp
        have hfresh : e.1 ∉ st.resolved.map (fun p => p.2.name) :=
          h2 e (List.mem_cons_self e rest)
        rcases ih (processEntry registry maxSat st e)
            (by
              rw [hnames, List.nodup_append]
              exact ⟨h1, List.nodup_singleton _, by
                intro k hk hk'
                simp only [List.mem_singleton] at hk'
                subst hk'
                exact hfresh hk⟩)
            (by
              intro f hf
              rw [hnames]
              intro hmem
              rcases List.mem_append.mp hmem with hmem | hmem
              · exact h2 f (List.mem_cons_of_mem e hf) hmem
              · simp only [List.mem_singleton] at hmem
                exact hkey (hmem ▸ List.mem_map_of_mem Prod.fst hf)) h3'
          with ⟨hN, hC⟩
        refine ⟨hN, ?_⟩
        intro n hn
        rcases hC n hn with hn' | hn'
        · rw [hnames] at hn'
          rcases List.mem_append.mp hn' with hn'' | hn''
          · exact Or.inl hn''
          · simp only [List.mem_singleton] at hn''
            subst hn''
            exact Or.inr (by simp)
        · exact Or.inr (by simp only [List.map_cons, List.mem_cons]; exact Or.inr hn')

/-- The loop keeps resolved names distinct, given that resolved names are
already visited, and frontier names are distinct and unvisited. -/
theorem resolveLoop_names (registry : String → Option Packument)
    (maxSat : List String → String → Option String) :
    ∀ (fuel : Nat) (resolved : List (String × ResolvedPackage)) (seen : List String)
      (lvl : List (String × String)),
      (resolved.map (fun p => p.2.name)).Nodup →
      (∀ n ∈ resolved.map (fun p => p.2.name), n ∈ seen) →
      (lvl.map Prod.fst).Nodup →
      (∀ k ∈ lvl.map Prod.fst, k ∉ seen) →
      ((resolveLoop registry maxSat fuel resolved seen lvl).map (fun p => p.2.name)).Nodup := by
  intro fuel
  induction fuel with
  | zero => intro resolved seen lvl h1 _ _ _; exact h1
  | succ fuel ih =>
      intro resolved seen lvl h1 hsub h3 hfresh
      simp only [resolveLoop]
      split
      · rcases processLevel_names registry maxSat lvl ⟨resolved, seen ++ lvl.map Prod.fst, []⟩
            h1
            (by
              intro e he hmem
              exact hfresh e.1 (List.mem_map_of_mem Prod.fst he) (hsub e.1 hmem)) h3
          with ⟨hN, hC⟩
        have hnl : NextLevelInv (processLevel registry maxSat
            ⟨resolved, seen ++ lvl.map Prod.fst, []⟩ lvl) :=
          processLevel_nlinv registry maxSat lvl _ ⟨List.nodup_nil, by intro k hk; cases hk⟩
        have hseen : (processLevel registry maxSat
            ⟨resolved, seen ++ lvl.map Prod.fst, []⟩ lvl).seen = seen ++ lvl.map Prod.fst :=
          processLevel_seen registry maxSat lvl _
        apply ih
        · exact hN
        · intro n hn
          rw [hseen]
          rcases hC n hn with hn' | hn'
          · exact List.mem_append_left _ (hsub n hn')
          · exact List.mem_append_right _ hn'
        · exact hnl.1
        · intro k hk
          rw [hseen]
          have := hnl.2 k hk
          rw [hseen] at this
          exact this
      · exact h1

/-- C10: the resolver's result holds at most one version per package name:
the list of resolved names is duplicate-free (the visited set and the
per-level frontier are keyed by name alone), so two resolved entries with
the same name are the same entry — in particular the same version. -/
theorem resolver_one_version_per_name (registry : String → Option Packument)
    (maxSat : List String → String → Option String) (root ver : String) :
    ((resolveDependencyTree registry maxSat root ver).map (fun p => p.2.name)).Nodup ∧
    ∀ p ∈ resolveDependencyTree registry maxSat root ver,
      ∀ q ∈ resolveDependencyTree registry maxSat root ver,
        p.2.name = q.2.name → p = q := by
  have hN : ((resolveDependencyTree registry maxSat root ver).map (fun p => p.2.name)).Nodup := by
    unfold resolveDependencyTree
    apply resolveLoop_names
    · exact List.nodup_nil
    · intro n hn; cases hn
    · simp
    · intro k hk hk'; cases hk'
  exact ⟨hN, List.inj_on_of_nodup_map hN⟩

/-- C8: a dependency entry whose packument fetch fails permanently
(`registry e.1 = none`) or whose specifier is unresolvable
(`resolveVersion` yields `none`, e.g. URL/git/file/path ranges or an `npm:`
alias with no resolvable target) never aborts resolution: processing it
leaves the traversal state untouched (so it is excluded from the result and
contributes zero size), and a level containing it resolves exactly as the
same level without it — all other branches are still resolved. -/
theorem unresolvable_entry_no_effect (registry : String → Option Packument)
    (maxSat : List String → String → Option String)
    (st : TraversalState) (xs ys : List (String × String)) (e : String × String)
    (h : registry e.1 = none ∨
      ∃ pk, registry e.1 = some pk ∧
        ∀ vlist, pk.versions = some vlist →
          resolveVersion maxSat e.2 (vlist.map Prod.fst) = none) :
    processEntry registry maxSat st e = st ∧
    processLevel registry maxSat st (xs ++ e :: ys) =
      processLevel registry maxSat st (xs ++ ys) := by
  have hstep : ∀ st' : TraversalState, processEntry registry maxSat st' e = st' := by
    intro st'
    unfold processEntry
    rcases h with h | ⟨pk, hpk, hres⟩
    · rw [h]
    · rw [hpk]
      dsimp only
      cases hv : pk.versions with
      | none => rfl
      | some vlist =>
          dsimp only
          rw [hres vlist hv]
  constructor
  · exact hstep st
  · unfold processLevel
    rw [List.foldl_append, List.foldl_append, List.foldl_cons, hstep]

/-- Witness for C8: a `file:` specifier against an existing package and a
fetch-failing package both leave a concrete state unchanged. -/
theorem unresolvable_entry_no_effect_witness :
    processEntry singleRegistry noSemver ⟨[], [], []⟩ ("ok", "file:../local") = ⟨[], [], []⟩ ∧
    processLevel singleRegistry noSemver ⟨[], [], []⟩
        ([("ok", "1.0.0")] ++ ("missing", "1.0.0") :: []) =
      processLevel singleRegistry noSemver ⟨[], [], []⟩ ([("ok", "1.0.0")] ++ []) :=
  ⟨(unresolvable_entry_no_effect singleRegistry noSemver ⟨[], [], []⟩ [] [] ("ok", "file:../local")
      (Or.inr ⟨leafPk "ok", rfl, by
        intro vlist hv
        injection hv with hv
        subst hv
        show resolveVersion noSemver "file:../local" ["1.0.0"] = none
        rw [resolveVersion]
        rw [if_neg (by decide : ¬ ("file:../local" ∈ ["1.0.0"]))]
        rw [if_neg (by decide : ¬ (strStartsWith "file:../local" "npm:" = true))]
        rw [if_pos (by decide :
          (strStartsWith "file:../local" "http://" || strStartsWith "file:../local" "https://"
            || strStartsWith "file:../local" "git" || strStartsWith "file:../local" "file:"
            || "file:../local".data.contains '/') = true)]⟩)).1,
   (unresolvable_entry_no_effect singleRegistry noSemver ⟨[], [], []⟩ [("ok", "1.0.0")] []
      ("missing", "1.0.0") (Or.inl (by decide))).2⟩

theorem processEntry_eval (registry : String → Option Packument)
    (maxSat : List String → String → Option String)
    (st : TraversalState) (n r : String) (pk : Packument)
    (vlist : List (String × PackumentVersion)) (vd : PackumentVersion) (v : String)
    (hpk : registry n = some pk) (hv : pk.versions = some vlist)
    (hres : resolveVersion maxSat r (vlist.map Prod.fst) = some v)
    (hfind : lookupKey v vlist = some vd)
    (hplat : matchesPlatform vd = true)
    (hnew : lookupKey (mkKey n v) st.resolved = none) :
    processEntry registry maxSat st (n, r) =
      pushDeps { st with resolved := st.resolved ++
          [(mkKey n v, ⟨n, v, (vd.dist.bind DistMeta.unpackedSize).getD 0⟩)] }
        (mergeDeps vd.dependencies vd.optionalDependencies) := by
  unfold processEntry
  dsimp only
  rw [hpk]
  dsimp only
  rw [hv]
  dsimp only
  rw [hres]
  dsimp only
  rw [hfind]
  dsimp only
  rw [if_pos hplat]
  simp only [hnew, Option.isSome_none, Bool.false_eq_true, if_false]

theorem resolveLoop_step (registry : String → Option Packument)
    (maxSat : List String → String → Option String)
    (fuel : Nat) (resolved : List (String × ResolvedPackage)) (seen : List String)
    (lvl : List (String × String))
    (h1 : 0 < lvl.length) (h2 : resolved.length < MAX_PACKAGES) :
    resolveLoop registry maxSat (fuel + 1) resolved seen lvl =
      resolveLoop registry maxSat fuel
        (processLevel registry maxSat ⟨resolved, seen ++ lvl.map Prod.fst, []⟩ lvl).resolved
        (processLevel registry maxSat ⟨resolved, seen ++ lvl.map Prod.fst, []⟩ lvl).seen
        (processLevel registry maxSat ⟨resolved, seen ++ lvl.map Prod.fst, []⟩ lvl).nextLevel := by
  simp only [resolveLoop]
  rw [if_pos ⟨h1, h2⟩]

theorem resolveLoop_end (registry : String → Option Packument)
    (maxSat : List String → String → Option String)
    (fuel : Nat) (resolved : List (String × ResolvedPackage)) (seen : List String) :
    resolveLoop registry maxSat fuel resolved seen [] = resolved := by
  cases fuel with
  | zero => rfl
  | succ fuel => simp [resolveLoop]

/-- General alias-unfolding helper: an `npm:` range that is not an exact
match resolves by recursing on the sub-range after the last at sign,
against the same version list. -/
theorem resolveVersion_npm_alias (maxSat : List String → String → Option String)
    (range : String) (versions : List String)
    (h1 : range ∉ versions)
    (h2 : strStartsWith range "npm:" = true)
    (h3 : 4 < lastAtIndex range) :
    resolveVersion maxSat range versions =
      resolveVersion maxSat (strSlice range ((lastAtIndex range).toNat + 1)) versions := by
  conv_lhs => rw [resolveVersion]
  rw [if_neg h1, if_pos h2, if_pos h3]

theorem npm_alias_counterexample :
    resolveDependencyTree aliasRegistry noSemver "app" "1.0.0" =
      [("app@1.0.0", ⟨"app", "1.0.0", 10⟩), ("alias-dep@2.0.0", ⟨"alias-dep", "2.0.0", 7⟩)] ∧
    aliasRegistry "real" = some ⟨"real", some "1.0.0", some [("1.0.0", realVd)]⟩ ∧
    ¬ ("2.0.0" ∈ ["1.0.0"]) := by
  refine ⟨?_, by decide, by decide⟩
  have e1 : processLevel aliasRegistry noSemver ⟨[], ["app"], []⟩ [("app", "1.0.0")] =
      ⟨[("app@1.0.0", ⟨"app", "1.0.0", 10⟩)], ["app"], [("alias-dep", "npm:real@2.0.0")]⟩ := by
    show processEntry aliasRegistry noSemver ⟨[], ["app"], []⟩ ("app", "1.0.0") = _
    rw [processEntry_eval aliasRegistry noSemver ⟨[], ["app"], []⟩ "app" "1.0.0"
      ⟨"app", some "1.0.0", some [("1.0.0", appVd)]⟩ [("1.0.0", appVd)] appVd "1.0.0"
      (by decide) (by decide) (resolveVersion_exact noSemver (by decide)) (by decide)
      (by decide) (by decide)]
    decide
  have halias : resolveVersion noSemver "npm:real@2.0.0" ["2.0.0"] = some "2.0.0" := by
    have h := resolveVersion_npm_alias noSemver "npm:real@2.0.0" ["2.0.0"]
      (by decide) (by decide) (by decide)
    rw [h]
    have hsub : strSlice "npm:real@2.0.0" ((lastAtIndex "npm:real@2.0.0").toNat + 1) =
        "2.0.0" := by decide
    rw [hsub]
    exact resolveVersion_exact noSemver (by decide)
  have e2 : processLevel aliasRegistry noSemver
      ⟨[("app@1.0.0", ⟨"app", "1.0.0", 10⟩)], ["app", "alias-dep"], []⟩
      [("alias-dep", "npm:real@2.0.0")] =
      ⟨[("app@1.0.0", ⟨"app", "1.0.0", 10⟩), ("alias-dep@2.0.0", ⟨"alias-dep", "2.0.0", 7⟩)],
        ["app", "alias-dep"], []⟩ := by
    show processEntry aliasRegistry noSemver _ ("alias-dep", "npm:real@2.0.0") = _
    rw [processEntry_eval aliasRegistry noSemver _ "alias-dep" "npm:real@2.0.0"
      ⟨"alias-dep", some "2.0.0", some [("2.0.0", aliasVd)]⟩ [("2.0.0", aliasVd)] aliasVd "2.0.0"
      (by decide) (by decide) halias (by decide) (by decide) (by decide)]
    decide
  show resolveLoop aliasRegistry noSemver (501 + 1) [] [] [("app", "1.0.0")] = _
  rw [resolveLoop_step aliasRegistry noSemver 501 [] [] [("app", "1.0.0")] (by decide)
    (by decide)]
  simp only [List.map_cons, List.map_nil, List.nil_append]
  rw [e1]
  rw [resolveLoop_step aliasRegistry noSemver 500 _ _ _ (by decide) (by decide)]
  simp only [List.map_cons, List.map_nil, List.cons_append, List.nil_append]
  rw [e2]
  exact resolveLoop_end aliasRegistry noSemver 500 _ _

/-- C6 (amended): for a dependency range `npm:<alias>@<subRange>` that is
not an exact version match, `resolveVersion` recurses on the sub-range
after the last at sign and matches it against the same version list it was
given — the versions of the package named by the dependency key; the
aliased package's own version list is never consulted. -/
theorem resolveVersion_alias_uses_same_list (maxSat : List String → String → Option String)
    (range : String) (versions : List String)
    (h1 : range ∉ versions) (h2 : strStartsWith range "npm:" = true)
    (h3 : 4 < lastAtIndex range) :
    resolveVersion maxSat range versions =
      resolveVersion maxSat (strSlice range ((lastAtIndex range).toNat + 1)) versions :=
  resolveVersion_npm_alias maxSat range versions h1 h2 h3

/-- Witness for C6 (amended) at the alias range `npm:real@2.0.0`. -/
theorem resolveVersion_alias_uses_same_list_witness :
    resolveVersion noSemver "npm:real@2.0.0" ["2.0.0"] =
      resolveVersion noSemver
        (strSlice "npm:real@2.0.0" ((lastAtIndex "npm:real@2.0.0").toNat + 1)) ["2.0.0"] :=
  resolveVersion_alias_uses_same_list noSemver "npm:real@2.0.0" ["2.0.0"]
    (by decide) (by decide) (by decide)

/-- C1: for a valid `(name, version)` input — the package exists, lists the
requested version, and that version passes the platform filter —
`getInstallSize` succeeds with `totalSize ≥ selfSize` and with
`dependencyCount` equal to the number of distinct `name@version` pairs in
the resolved set minus one: the root is excluded from `dependencyCount` but
its size is included in `totalSize`. -/
theorem getInstallSize_spec (registry : String → Option Packument)
    (maxSat : List String → String → Option String)
    (name version : String) (pk : Packument)
    (vlist : List (String × PackumentVersion)) (vd : PackumentVersion)
    (hpk : registry name = some pk)
    (hv : pk.versions = some vlist)
    (hfind : lookupKey version vlist = some vd)
    (hplat : matchesPlatform vd = true) :
    ∃ r, getInstallSize registry maxSat name (some version) = some r ∧
      r.selfSize ≤ r.totalSize ∧
      r.dependencyCount + 1 = (resolveDependencyTree registry maxSat name version).length := by
  have hmem : version ∈ vlist.map Prod.fst := lookupKey_mem_keys hfind
  have e1 : processLevel registry maxSat ⟨[], [name], []⟩ [(name, version)] =
      pushDeps ⟨[(mkKey name version,
          ⟨name, version, (vd.dist.bind DistMeta.unpackedSize).getD 0⟩)], [name], []⟩
        (mergeDeps vd.dependencies vd.optionalDependencies) := by
    show processEntry registry maxSat ⟨[], [name], []⟩ (name, version) = _
    rw [processEntry_eval registry maxSat ⟨[], [name], []⟩ name version pk vlist vd version
      hpk hv (resolveVersion_exact maxSat hmem) hfind hplat rfl]
    rfl
  have htree : resolveDependencyTree registry maxSat name version =
      resolveLoop registry maxSat (MAX_PACKAGES + 1)
        (pushDeps ⟨[(mkKey name version,
            ⟨name, version, (vd.dist.bind DistMeta.unpackedSize).getD 0⟩)], [name], []⟩
          (mergeDeps vd.dependencies vd.optionalDependencies)).resolved
        (pushDeps ⟨[(mkKey name version,
            ⟨name, version, (vd.dist.bind DistMeta.unpackedSize).getD 0⟩)], [name], []⟩
          (mergeDeps vd.dependencies vd.optionalDependencies)).seen
        (pushDeps ⟨[(mkKey name version,
            ⟨name, version, (vd.dist.bind DistMeta.unpackedSize).getD 0⟩)], [name], []⟩
          (mergeDeps vd.dependencies vd.optionalDependencies)).nextLevel := by
    show resolveLoop registry maxSat (MAX_PACKAGES + 1 + 1) [] [] [(name, version)] = _
    rw [resolveLoop_step registry maxSat (MAX_PACKAGES + 1) [] [] [(name, version)]
      (by simp) (by decide)]
    simp only [List.map_cons, List.map_nil, List.nil_append]
    rw [e1]
  rw [pushDeps_resolved] at htree
  rcases resolveLoop_resolved_append registry maxSat (MAX_PACKAGES + 1) _ _ _ with ⟨t, ht⟩
  rw [ht] at htree
  have hKeys : KeysInv (resolveDependencyTree registry maxSat name version) := by
    rw [htree]
    rw [← ht]
    apply resolveLoop_keysInv
    constructor
    · intro p hp
      simp only [List.mem_singleton] at hp
      subst hp
      rfl
    · simp
  have hR : resolveDependencyTree registry maxSat name version =
      (mkKey name version, ⟨name, version, (vd.dist.bind DistMeta.unpackedSize).getD 0⟩) :: t := by
    rw [htree]
    rfl
  have hg : getInstallSize registry maxSat name (some version) =
      some ⟨(match lookupKey (mkKey name version)
              (resolveDependencyTree registry maxSat name version) with
             | some p => p.size
             | none => 0),
            ((resolveDependencyTree registry maxSat name version).map (fun p => p.2.size)).sum,
            ((resolveDependencyTree registry maxSat name version).filter
              (fun p => decide (mkKey p.2.name p.2.version ≠ mkKey name version))).length⟩ := by
    unfold getInstallSize
    rw [hpk]
    dsimp only
    rw [hv]
    dsimp only
    simp only [Option.some_orElse]
  refine ⟨_, hg, ?_, ?_⟩
  · rw [hR]
    simp only [lookupKey, if_pos rfl, List.map_cons, List.sum_cons]
    exact Nat.le_add_right _ _
  · rw [hR] at hKeys ⊢
    have hhead : (decide (mkKey (⟨name, version,
        (vd.dist.bind DistMeta.unpackedSize).getD 0⟩ : ResolvedPackage).name
        (⟨name, version, (vd.dist.bind DistMeta.unpackedSize).getD 0⟩ : ResolvedPackage).version
        ≠ mkKey name version)) = false := by
      simp
    have hkeep : ∀ p ∈ t,
        (decide (mkKey p.2.name p.2.version ≠ mkKey name version)) = true := by
      intro p hp
      have hcoh := hKeys.1 p (List.mem_cons_of_mem _ hp)
      have hnd := hKeys.2
      simp only [List.map_cons, List.nodup_cons] at hnd
      have : p.1 ≠ mkKey name version := by
        intro hcontra
        exact hnd.1 (hcontra ▸ List.mem_map_of_mem Prod.fst hp)
      rw [decide_eq_true_eq]
      rw [← hcoh]
      exact this
    rw [List.filter_cons]
    rw [hhead]
    rw [List.filter_eq_self.mpr hkeep]
    simp

/-- Witness for C1 on a one-package registry. -/
theorem getInstallSize_spec_witness :
    ∃ r, getInstallSize singleRegistry noSemver "ok" (some "1.0.0") = some r ∧
      r.selfSize ≤ r.totalSize ∧
      r.dependencyCount + 1 =
        (resolveDependencyTree singleRegistry noSemver "ok" "1.0.0").length :=
  getInstallSize_spec singleRegistry noSemver "ok" "1.0.0" (leafPk "ok") [("1.0.0", leafVd)]
    leafVd (by decide) (by decide) (by decide) (by decide)

theorem mergeDeps_nil (a : List (String × String)) : mergeDeps a [] = a := by
  simp [mergeDeps, lookupKey]

theorem pushDeps_all_fresh : ∀ (deps : List (String × String)) (st : TraversalState),
    (∀ d ∈ deps, d.1 ∉ st.seen) →
    ((deps.map Prod.fst).Nodup) →
    (∀ d ∈ deps, lookupKey d.1 st.nextLevel = none) →
    st.resolved.length < MAX_PACKAGES →
    pushDeps st deps = { st with nextLevel := st.nextLevel ++ deps } := by
  intro deps
  induction deps with
  | nil => intro st _ _ _ _; simp [pushDeps]
  | cons d rest ih =>
      intro st h1 h2 h3 h4
      unfold pushDeps at ih ⊢
      rw [List.foldl_cons]
      rw [if_pos ⟨h1 d (List.mem_cons_self d rest), h3 d (List.mem_cons_self d rest), h4⟩]
      have hrest := ih { st with nextLevel := st.nextLevel ++ [d] }
        (by intro f hf; exact h1 f (List.mem_cons_of_mem d hf))
        (List.nodup_cons.mp h2).2
        (by
          intro f hf
          rw [lookupKey_eq_none_iff]
          simp only [List.map_append, List.mem_append, List.map_cons, List.map_nil,
            List.mem_singleton]
          push_neg
          refine ⟨?_, ?_⟩
          · rw [← lookupKey_eq_none_iff]
            exact h3 f (List.mem_cons_of_mem d hf)
          · intro hcontra
            exact (List.nodup_cons.mp h2).1
              (hcontra ▸ List.mem_map_of_mem Prod.fst hf))
        h4
      rw [hrest]
      simp [List.append_assoc]

theorem processLevel_leaf_eval (registry : String → Option Packument)
    (maxSat : List String → String → Option String) :
    ∀ (entries : List (String × String)) (st : TraversalState),
      (∀ e ∈ entries, registry e.1 = some (leafPk e.1)) →
      (∀ e ∈ entries, e.2 = "1.0.0") →
      ((entries.map (fun e => mkKey e.1 "1.0.0")).Nodup) →
      (∀ e ∈ entries, lookupKey (mkKey e.1 "1.0.0") st.resolved = none) →
      processLevel registry maxSat st entries =
        { st with resolved := st.resolved ++
            entries.map (fun e => (mkKey e.1 "1.0.0", ⟨e.1, "1.0.0", 1⟩)) } := by
  intro entries
  induction entries with
  | nil => intro st _ _ _ _; simp [processLevel]
  | cons e rest ih =>
      intro st h1 h2 h3 h4
      obtain ⟨n, r⟩ := e
      have hr : r = "1.0.0" := h2 (n, r) (List.mem_cons_self _ _)
      subst hr
      unfold processLevel at ih ⊢
      rw [List.foldl_cons]
      rw [processEntry_eval registry maxSat st n "1.0.0" (leafPk n) [("1.0.0", leafVd)]
        leafVd "1.0.0" (h1 (n, "1.0.0") (List.mem_cons_self _ _)) rfl
        (resolveVersion_exact maxSat (by decide)) (by decide) (by decide)
        (h4 (n, "1.0.0") (List.mem_cons_self _ _))]
      have hid : pushDeps { st with resolved := st.resolved ++
          [(mkKey n "1.0.0", ⟨n, "1.0.0", (leafVd.dist.bind DistMeta.unpackedSize).getD 0⟩)] }
          (mergeDeps leafVd.dependencies leafVd.optionalDependencies) =
          { st with resolved := st.resolved ++ [(mkKey n "1.0.0", ⟨n, "1.0.0", 1⟩)] } := rfl
      rw [hid]
      rw [ih { st with resolved := st.resolved ++ [(mkKey n "1.0.0", ⟨n, "1.0.0", 1⟩)] }
        (by intro f hf; exact h1 f (List.mem_cons_of_mem _ hf))
        (by intro f hf; exact h2 f (List.mem_cons_of_mem _ hf))
        (List.nodup_cons.mp h3).2
        (by
          intro f hf
          rw [lookupKey_eq_none_iff]
          simp only [List.map_append, List.mem_append, List.map_cons, List.map_nil,
            List.mem_singleton]
          push_neg
          refine ⟨?_, ?_⟩
          · rw [← lookupKey_eq_none_iff]
            exact h4 f (List.mem_cons_of_mem _ hf)
          · intro hcontra
            have hmem : mkKey n "1.0.0" ∈ rest.map (fun e => mkKey e.1 "1.0.0") := by
              rw [← hcontra]
              exact List.mem_map_of_mem (fun e => mkKey e.1 "1.0.0") hf
            exact (List.nodup_cons.mp h3).1 hmem)]
      simp [List.append_assoc]

theorem dName_inj : Function.Injective dName := by
  intro i j h
  have hd := congrArg String.data h
  simp only [dName] at hd
  have hl := congrArg List.length hd
  simp only [List.length_replicate] at hl
  omega

theorem dName_ne_root (i : Nat) : dName i ≠ "root" := by
  intro h
  have hd := congrArg String.data h
  simp only [dName] at hd
  rw [List.replicate_succ] at hd
  injection hd with h1 _
  exact absurd h1 (by decide)

theorem fanRegistry_dName (k i : Nat) (h : i < k) :
    fanRegistry k (dName i) = some (leafPk (dName i)) := by
  unfold fanRegistry
  rw [if_neg (dName_ne_root i)]
  rw [if_pos]
  refine ⟨?_, ?_, ?_⟩
  · simp [dName, List.replicate_succ]
  · simp only [dName]
    rw [List.all_eq_true]
    intro c hc
    simp [List.eq_of_mem_replicate hc]
  · simp only [dName, List.length_replicate]
    omega

theorem mkKey_data (a b : String) : (mkKey a b).data = a.data ++ '@' :: b.data := by
  show ((a ++ "@") ++ b).data = a.data ++ '@' :: b.data
  rw [String.data_append, String.data_append]
  simp

theorem mkKey_dName_inj : Function.Injective (fun i => mkKey (dName i) "1.0.0") := by
  intro i j h
  have hd := congrArg String.data h
  rw [mkKey_data, mkKey_data] at hd
  have hl := congrArg List.length hd
  simp only [List.length_append, List.length_cons, dName, List.length_replicate] at hl
  omega

theorem mkKey_dName_ne_rootKey (i : Nat) :
    mkKey (dName i) "1.0.0" ≠ mkKey "root" "1.0.0" := by
  intro h
  have hd := congrArg String.data h
  rw [mkKey_data, mkKey_data] at hd
  simp only [dName, List.replicate_succ, List.cons_append] at hd
  injection hd with h1 _
  exact absurd h1 (by decide)

theorem fanDeps_registry (k : Nat) : ∀ e ∈ fanDeps k, fanRegistry k e.1 = some (leafPk e.1) := by
  intro e he
  simp only [fanDeps, List.mem_map, List.mem_range] at he
  obtain ⟨i, hi, rfl⟩ := he
  exact fanRegistry_dName k i hi

theorem fanDeps_snd (k : Nat) : ∀ e ∈ fanDeps k, e.2 = "1.0.0" := by
  intro e he
  simp only [fanDeps, List.mem_map, List.mem_range] at he
  obtain ⟨i, _, rfl⟩ := he
  rfl

theorem fanDeps_fst_ne_root (k : Nat) : ∀ d ∈ fanDeps k, d.1 ∉ (["root"] : List String) := by
  intro d hd
  simp only [fanDeps, List.mem_map, List.mem_range] at hd
  obtain ⟨i, _, rfl⟩ := hd
  simp only [List.mem_singleton]
  exact dName_ne_root i

theorem fanDeps_fst_nodup (k : Nat) : ((fanDeps k).map Prod.fst).Nodup := by
  simp only [fanDeps, List.map_map]
  exact List.Nodup.map dName_inj (List.nodup_range k)

theorem fanDeps_keys_nodup (k : Nat) :
    ((fanDeps k).map (fun e => mkKey e.1 "1.0.0")).Nodup := by
  simp only [fanDeps, List.map_map]
  exact List.Nodup.map mkKey_dName_inj (List.nodup_range k)

theorem fanDeps_keys_fresh (k : Nat) : ∀ e ∈ fanDeps k,
    lookupKey (mkKey e.1 "1.0.0")
      [(mkKey "root" "1.0.0", (⟨"root", "1.0.0", 1⟩ : ResolvedPackage))] = none := by
  intro e he
  simp only [fanDeps, List.mem_map, List.mem_range] at he
  obtain ⟨i, _, rfl⟩ := he
  rw [lookupKey_eq_none_iff]
  simp only [List.map_cons, List.map_nil, List.mem_singleton]
  exact mkKey_dName_ne_rootKey i


theorem fanDeps_length (k : Nat) : (fanDeps k).length = k := by
  simp [fanDeps]

theorem processLevel_singleton (registry : String → Option Packument)
    (maxSat : List String → String → Option String)
    (st : TraversalState) (e : String × String) :
    processLevel registry maxSat st [e] = processEntry registry maxSat st e := rfl

/-- One loop iteration, with the level's outcome supplied as an equation so
concrete runs never rely on definitional evaluation of the traversal. -/
theorem resolveLoop_step2 (registry : String → Option Packument)
    (maxSat : List String → String → Option String)
    (fuel : Nat) (resolved r2 : List (String × ResolvedPackage)) (seen s2 : List String)
    (lvl n2 : List (String × String))
    (h1 : 0 < lvl.length) (h2 : resolved.length < MAX_PACKAGES)
    (hst : processLevel registry maxSat ⟨resolved, seen ++ lvl.map Prod.fst, []⟩ lvl =
      ⟨r2, s2, n2⟩) :
    resolveLoop registry maxSat (fuel + 1) resolved seen lvl =
      resolveLoop registry maxSat fuel r2 s2 n2 := by
  simp only [resolveLoop]
  rw [if_pos ⟨h1, h2⟩, hst]

/-- Level 0 of the fan traversal: the root resolves and enqueues all 501
leaf dependencies. -/
theorem fan_root_entry_eval :
    processLevel (fanRegistry 501) noSemver ⟨[], ["root"], []⟩ [("root", "1.0.0")] =
      ⟨[(mkKey "root" "1.0.0", ⟨"root", "1.0.0", 1⟩)], ["root"], fanDeps 501⟩ := by
  have h0 := processEntry_eval (fanRegistry 501) noSemver ⟨[], ["root"], []⟩ "root" "1.0.0"
    ⟨"root", some "1.0.0",
      some [("1.0.0", ⟨"1.0.0", some ⟨some 1⟩, fanDeps 501, [], none, none, none⟩)]⟩
    [("1.0.0", ⟨"1.0.0", some ⟨some 1⟩, fanDeps 501, [], none, none, none⟩)]
    ⟨"1.0.0", some ⟨some 1⟩, fanDeps 501, [], none, none, none⟩ "1.0.0"
    (by unfold fanRegistry fanRootVd; rw [if_pos rfl]) rfl
    (resolveVersion_exact noSemver (by decide)) rfl rfl rfl
  dsimp only at h0
  rw [show ((some (⟨some 1⟩ : DistMeta)).bind DistMeta.unpackedSize).getD 0 = 1 from rfl] at h0
  rw [mergeDeps_nil] at h0
  rw [List.nil_append] at h0
  rw [pushDeps_all_fresh (fanDeps 501)
    ⟨[(mkKey "root" "1.0.0", ⟨"root", "1.0.0", 1⟩)], ["root"], []⟩
    (fanDeps_fst_ne_root 501) (fanDeps_fst_nodup 501)
    (fun d _ => rfl) (by norm_num [MAX_PACKAGES])] at h0
  dsimp only at h0
  rw [List.nil_append] at h0
  rw [processLevel_singleton]
  exact h0

/-- Level 1 of the fan traversal: all 501 leaves are appended to the
resolved set, with no inserted-size cap check. -/
theorem fan_leaf_level_eval :
    processLevel (fanRegistry 501) noSemver
        ⟨[(mkKey "root" "1.0.0", ⟨"root", "1.0.0", 1⟩)],
          "root" :: (fanDeps 501).map Prod.fst, []⟩ (fanDeps 501) =
      ⟨[(mkKey "root" "1.0.0", ⟨"root", "1.0.0", 1⟩)] ++
          (fanDeps 501).map (fun e => (mkKey e.1 "1.0.0", ⟨e.1, "1.0.0", 1⟩)),
        "root" :: (fanDeps 501).map Prod.fst, []⟩ :=
  processLevel_leaf_eval (fanRegistry 501) noSemver (fanDeps 501)
    ⟨[(mkKey "root" "1.0.0", ⟨"root", "1.0.0", 1⟩)],
      "root" :: (fanDeps 501).map Prod.fst, []⟩
    (fanDeps_registry 501) (fanDeps_snd 501) (fanDeps_keys_nodup 501)
    (fanDeps_keys_fresh 501)

theorem resolver_cap_counterexample_aux :
    resolveDependencyTree (fanRegistry 501) noSemver "root" "1.0.0" =
      [(mkKey "root" "1.0.0", ⟨"root", "1.0.0", 1⟩)] ++
        (fanDeps 501).map (fun e => (mkKey e.1 "1.0.0", ⟨e.1, "1.0.0", 1⟩)) := by
  have hseen1 : ([] ++ [("root", "1.0.0")].map Prod.fst : List String) = ["root"] := rfl
  have hst1 : processLevel (fanRegistry 501) noSemver
      ⟨[], [] ++ [("root", "1.0.0")].map Prod.fst, []⟩ [("root", "1.0.0")] =
      ⟨[(mkKey "root" "1.0.0", ⟨"root", "1.0.0", 1⟩)], ["root"], fanDeps 501⟩ := by
    rw [hseen1]
    exact fan_root_entry_eval
  have hseen2 : (["root"] ++ (fanDeps 501).map Prod.fst : List String) =
      "root" :: (fanDeps 501).map Prod.fst := by
    rw [List.cons_append, List.nil_append]
  have hst2 : processLevel (fanRegistry 501) noSemver
      ⟨[(mkKey "root" "1.0.0", ⟨"root", "1.0.0", 1⟩)],
        ["root"] ++ (fanDeps 501).map Prod.fst, []⟩ (fanDeps 501) =
      ⟨[(mkKey "root" "1.0.0", ⟨"root", "1.0.0", 1⟩)] ++
          (fanDeps 501).map (fun e => (mkKey e.1 "1.0.0", ⟨e.1, "1.0.0", 1⟩)),
        "root" :: (fanDeps 501).map Prod.fst, []⟩ := by
    rw [hseen2]
    exact fan_leaf_level_eval
  show resolveLoop (fanRegistry 501) noSemver (MAX_PACKAGES + 1 + 1) [] [] [("root", "1.0.0")] = _
  refine (resolveLoop_step2 (fanRegistry 501) noSemver (MAX_PACKAGES + 1) []
    [(mkKey "root" "1.0.0", ⟨"root", "1.0.0", 1⟩)] [] ["root"] [("root", "1.0.0")]
    (fanDeps 501) (by simp) (by decide) hst1).trans ?_
  refine (resolveLoop_step2 (fanRegistry 501) noSemver MAX_PACKAGES
    [(mkKey "root" "1.0.0", ⟨"root", "1.0.0", 1⟩)]
    ([(mkKey "root" "1.0.0", ⟨"root", "1.0.0", 1⟩)] ++
      (fanDeps 501).map (fun e => (mkKey e.1 "1.0.0", ⟨e.1, "1.0.0", 1⟩)))
    ["root"] ("root" :: (fanDeps 501).map Prod.fst) (fanDeps 501) []
    (by rw [fanDeps_length]; norm_num) (by norm_num [MAX_PACKAGES]) hst2).trans ?_
  exact resolveLoop_end (fanRegistry 501) noSemver MAX_PACKAGES _ _

/-- C5 counterexample: a root with 501 resolvable leaf dependencies yields
a resolved set of 502 entries — more than `MAX_PACKAGES = 500` — because
the cap is only checked between levels and when enqueuing, never when
inserting into the resolved set. -/
theorem resolver_cap_counterexample :
    MAX_PACKAGES <
      (resolveDependencyTree (fanRegistry 501) noSemver "root" "1.0.0").length := by
  rw [resolver_cap_counterexample_aux]
  rw [List.length_append, List.length_map, fanDeps_length]
  norm_num [MAX_PACKAGES]

theorem processLevel_growth (registry : String → Option Packument)
    (maxSat : List String → String → Option String) :
    ∀ (lvl : List (String × String)) (st : TraversalState),
      (processLevel registry maxSat st lvl).resolved.length ≤
        st.resolved.length + lvl.length := by
  intro lvl
  induction lvl with
  | nil => intro st; simp [processLevel]
  | cons e rest ih =>
      intro st
      unfold processLevel at ih ⊢
      rw [List.foldl_cons]
      have hstep : (processEntry registry maxSat st e).resolved.length ≤
          st.resolved.length + 1 := by
        rcases processEntry_resolved_cases registry maxSat st e with heq | ⟨v, sz, _, heq⟩
        · rw [heq]; omega
        · rw [heq]; simp
      have hrest := ih (processEntry registry maxSat st e)
      simp only [List.length_cons]
      omega

/-- C5 (amended): the 500-package cap is enforced only between BFS levels:
once the resolved set holds at least `MAX_PACKAGES` entries, no further
level is processed; and one level adds at most one resolved entry per level
element.  The final set can therefore exceed 500 — by up to the size of the
level in flight when the cap was crossed — rather than never exceeding it. -/
theorem resolver_cap_between_levels :
    (∀ (registry : String → Option Packument) (maxSat : List String → String → Option String)
        (fuel : Nat) (resolved : List (String × ResolvedPackage)) (seen : List String)
        (lvl : List (String × String)),
      MAX_PACKAGES ≤ resolved.length →
      resolveLoop registry maxSat fuel resolved seen lvl = resolved) ∧
    (∀ (registry : String → Option Packument) (maxSat : List String → String → Option String)
        (st : TraversalState) (lvl : List (String × String)),
      (processLevel registry maxSat st lvl).resolved.length ≤
        st.resolved.length + lvl.length) :=
  ⟨fun registry maxSat fuel resolved seen lvl h =>
      resolveLoop_capped registry maxSat fuel resolved seen lvl h,
   fun registry maxSat st lvl => processLevel_growth registry maxSat lvl st⟩

/-- Witness for C5 (amended) at a full resolved set and a concrete level. -/
theorem resolver_cap_between_levels_witness :
    resolveLoop (fun _ => none) noSemver 7
        (List.replicate MAX_PACKAGES ("k", (⟨"n", "v", 0⟩ : ResolvedPackage))) [] [("a", "1")] =
      List.replicate MAX_PACKAGES ("k", (⟨"n", "v", 0⟩ : ResolvedPackage)) ∧
    (processLevel (fun _ => none) noSemver ⟨[], [], []⟩ [("a", "1")]).resolved.length ≤
      (⟨[], [], []⟩ : TraversalState).resolved.length + [("a", "1")].length :=
  ⟨resolver_cap_between_levels.1 (fun _ => none) noSemver 7 _ [] _ (by simp),
   resolver_cap_between_levels.2 (fun _ => none) noSemver ⟨[], [], []⟩ [("a", "1")]⟩
